import Mathlib

/-!
Verification of the display core of `next-tramway-esp32`.

Rust strings (`&str`, `heapless::String<N>`) are modelled as `List Char`;
capacity checks in the source count UTF-8 bytes (`str::len`,
`heapless::Vec` of bytes), so capacities are checked against the summed
UTF-8 sizes (`byteLen`), while `core::fmt` width specifiers count chars,
as in the source.  `heapless` pushes are all-or-nothing: a `push_str`
that would overflow leaves the buffer unchanged (the source ignores the
`Err` with `let _ =`), and a failing write inside `write!` aborts the
remaining format pieces.
-/

namespace NextTramway

abbrev Str := List Char

/-- UTF-8 byte length of a string, as Rust's `str::len`. -/
def byteLen (s : Str) : Nat := (s.map Char.utf8Size).sum

/-- All chars are 1-byte UTF-8 (ASCII). -/
def asciiStr (s : Str) : Prop := ∀ c ∈ s, Char.utf8Size c = 1

instance (s : Str) : Decidable (asciiStr s) :=
  inferInstanceAs (Decidable (∀ c ∈ s, Char.utf8Size c = 1))

/-- `str::split(sep)`: splitting an empty string gives `[""]`, separators at
the ends give empty components, exactly as Rust's `split` iterator. -/
def splitChar (sep : Char) : Str → List Str
  | [] => [[]]
  | c :: rest =>
    if c = sep then [] :: splitChar sep rest
    else
      match splitChar sep rest with
      | [] => [[c]]
      | r :: rs => (c :: r) :: rs

/-- Join parts with a separator char (inverse of `splitChar` on
separator-free parts); used to quantify over well-formed payloads. -/
def joinSep (sep : Char) : List Str → Str
  | [] => []
  | [x] => x
  | x :: y :: ys => x ++ sep :: joinSep sep (y :: ys)

/-- `heapless::String<cap>::push_str`: all-or-nothing append, the `Err` is
discarded by the callers (`let _ = ...`). -/
def push_str (cap : Nat) (buf s : Str) : Str :=
  if byteLen buf + byteLen s ≤ cap then buf ++ s else buf

/-- `heapless::String<cap>::push` of a single char (failure discarded). -/
def pushc (cap : Nat) (buf : Str) (c : Char) : Str :=
  if byteLen buf + Char.utf8Size c ≤ cap then buf ++ [c] else buf

/-- `heapless::Vec<_, cap>::push` with the `Err` discarded: appends only
while below capacity. -/
def vecPush {α : Type} (cap : Nat) (xs : List α) (x : α) : List α :=
  if xs.length < cap then xs ++ [x] else xs

/-- Decimal digit accumulation, as Rust's `from_str_radix` loop. -/
def parseDigits (s : Str) : Nat := s.foldl (fun a c => a * 10 + (c.toNat - 48)) 0

/-- Rust `str::parse::<uN>()` for an unsigned type whose values are
`< bound`: an optional leading `+`, then at least one ASCII digit, and the
accumulated value must stay below the bound (Rust detects overflow during
accumulation; for base 10 the accumulator is monotone, so checking the
final value is equivalent). -/
def parse_uint (bound : Nat) (s : Str) : Option Nat :=
  let t := match s with
    | '+' :: r => r
    | _ => s
  if t ≠ [] ∧ t.all Char.isDigit ∧ parseDigits t < bound then some (parseDigits t)
  else none

/-- `usize::MAX + 1` on the 32-bit ESP32 target. -/
def U32 : Nat := 4294967296

/-- `u8::MAX + 1`. -/
def U8 : Nat := 256

/- ## Data model (src/display.rs) -/

structure TramNextPassage where
  destination : Str
  relative_arrival : Nat
deriving DecidableEq

structure TramDirectionState where
  update_at : Str
  direction_id : Nat
  next_passages : List TramNextPassage
deriving DecidableEq

structure TramLineState where
  line : Str
  directions : List TramDirectionState
deriving DecidableEq

structure UiState where
  lines : List TramLineState
  current_message : Option Str
  current_line : Nat
  current_direction_id : Nat
deriving DecidableEq

inductive UiCommand where
  | UpdateDirection (line : Str) (direction_id : Nat)
      (next_passages : List TramNextPassage) (update_at : Str)
  | UpdateMessage (msg : Str)
  | NextScreen
deriving DecidableEq

instance : Inhabited TramDirectionState := ⟨⟨[], 0, []⟩⟩

instance : Inhabited TramLineState := ⟨⟨[], []⟩⟩

/- ## Wire decoder (src/bin/main.rs, `parse_mqtt_event`) -/

/-- One step of the passage loop in `parse_mqtt_event`: a record with at
least three `|`-separated fields contributes a passage (destination
`push_str`ed into a fresh `String<32>`, arrival parsed as `u8`, a failing
arrival parse rejects the whole message via `return None`); any other
record is skipped. -/
def passageStep (acc : Option (List TramNextPassage)) (passage : Str) :
    Option (List TramNextPassage) :=
  match acc with
  | none => none
  | some ps =>
    match splitChar '|' passage with
    | destination :: relative_arrival :: _ :: _ =>
      match parse_uint U8 relative_arrival with
      | some v => some (vecPush 3 ps ⟨push_str 32 [] destination, v⟩)
      | none => none
    | _ => some ps

/-- `parse_mqtt_event(topic, text)`: the topic is `rsplit` on `/` and needs
two components, of which only the first (the trailing `direction_id`) is
used; the payload is split on newlines, its first record is the line name
(`String<16>`), its last record the timestamp (`String<10>`), and the
records in between are passage records. -/
def parse_mqtt_event (topic text : Str) : Option UiCommand :=
  match (splitChar '/' topic).reverse with
  | direction_id :: _ :: _ =>
    match splitChar '\n' text with
    | [] => none
    | lineRec :: rest =>
      let line := push_str 16 [] lineRec
      match rest.getLast? with
      | none => none
      | some update_at =>
        match rest.dropLast.foldl passageStep (some []) with
        | none => none
        | some next_passages =>
          match parse_uint U32 direction_id with
          | none => none
          | some did =>
            some (.UpdateDirection line did next_passages (push_str 10 [] update_at))
  | _ => none

/-- The component Rust's `rsplit('/').next()` yields from the topic. -/
def lastComponent (topic : Str) : Str := ((splitChar '/' topic).reverse).headD []

/- ## Command reducer (src/display.rs, `apply_ui_command`) -/

/-- `iter_mut().find(p)` followed by an in-place mutation `f` of the found
element: `none` when no element matches. -/
def updateFirst {α : Type} (p : α → Bool) (f : α → α) : List α → Option (List α)
  | [] => none
  | x :: xs =>
    if p x then some (f x :: xs)
    else
      match updateFirst p f xs with
      | some ys => some (x :: ys)
      | none => none

/-- The in-place mutation performed on a found `TramDirectionState`:
replace its `next_passages` and `update_at` (the `direction_id` is left
alone). -/
def updDir (next_passages : List TramNextPassage) (update_at : Str)
    (dir_state : TramDirectionState) : TramDirectionState :=
  { dir_state with next_passages := next_passages, update_at := update_at }

/-- The mutation performed on a found `TramLineState`: update the first
direction with a matching id in place, or push a new `TramDirectionState`
(capacity 2, failures dropped). -/
def updLine (direction_id : Nat) (next_passages : List TramNextPassage)
    (update_at : Str) (line_state : TramLineState) : TramLineState :=
  match updateFirst (fun d => d.direction_id == direction_id)
      (updDir next_passages update_at) line_state.directions with
  | some ds => { line_state with directions := ds }
  | none =>
    { line_state with
        directions :=
          vecPush 2 line_state.directions ⟨update_at, direction_id, next_passages⟩ }

def apply_ui_command (state : UiState) (cmd : UiCommand) : UiState :=
  match cmd with
  | .UpdateDirection line direction_id next_passages update_at =>
    match updateFirst (fun l => l.line == line)
        (updLine direction_id next_passages update_at) state.lines with
    | some ls => { state with lines := ls }
    | none =>
      { state with
          lines :=
            vecPush 8 state.lines
              ⟨line, vecPush 2 [] ⟨update_at, direction_id, next_passages⟩⟩ }
  | .NextScreen =>
    if state.lines.isEmpty then state
    else
      let cdi := state.current_direction_id + 1
      let line := state.lines.getD state.current_line default
      if line.directions.length ≤ cdi then
        { state with
            current_direction_id := 0,
            current_line := (state.current_line + 1) % state.lines.length }
      else { state with current_direction_id := cdi }
  | .UpdateMessage string_inner => { state with current_message := some string_inner }

/-- The `UiState` the renderer task starts from (src/bin/main.rs). -/
def init_ui_state : UiState := ⟨[], none, 0, 0⟩

/- ## Incremental renderer (src/lcd.rs) -/

/-- The row buffers are `heapless::String<20>`. -/
def ROW_CAP : Nat := 20

/-- `get_size_and_offset` for the `L2004` geometry returns width `19`; the
renderer always uses `width + 1 = 20` columns. -/
def LCD_COLS : Nat := 19 + 1

/-- One piece of a `write!` format expansion: `core::fmt` emits whole
strings with `write_str` (all-or-nothing on a heapless `String`) and fill
characters one at a time. -/
inductive Chunk where
  | cstr (s : Str)
  | cch (c : Char)
deriving DecidableEq

/-- Run format pieces against a heapless `String<cap>`: the first failing
piece aborts the whole `write!` (its `Err` is then discarded by the
caller), leaving the pieces already written in the buffer. -/
def writeChunks (cap : Nat) : Str → List Chunk → Str
  | buf, [] => buf
  | buf, .cstr s :: rest =>
    if byteLen buf + byteLen s ≤ cap then writeChunks cap (buf ++ s) rest else buf
  | buf, .cch c :: rest =>
    if byteLen buf + Char.utf8Size c ≤ cap then writeChunks cap (buf ++ [c]) rest else buf

/-- Decimal digits, fuel-driven so the kernel can evaluate it (the fuel
`n + 1` always suffices since `n / 10 < n` for `n ≥ 10`). -/
def decDigitsGo : Nat → Nat → Str
  | _, 0 => []
  | n, fuel + 1 =>
    if n < 10 then [Char.ofNat (48 + n)]
    else decDigitsGo (n / 10) fuel ++ [Char.ofNat (48 + n % 10)]

/-- Decimal digits of a `Nat`, most significant first (what `{}` renders
for an unsigned integer). -/
def decDigits (n : Nat) : Str := decDigitsGo n (n + 1)

/-- `{:<w}` (`Formatter::pad`, left aligned): the content first, then fill
chars up to the char-count width. -/
def padLeftAlignChunks (w : Nat) (s : Str) : List Chunk :=
  Chunk.cstr s :: List.replicate (w - s.length) (Chunk.cch ' ')

/-- `{:>w}` (right aligned, also `pad_integral` for unsigned numbers):
fill chars first, then the content. -/
def padRightAlignChunks (w : Nat) (s : Str) : List Chunk :=
  List.replicate (w - s.length) (Chunk.cch ' ') ++ [Chunk.cstr s]

/-- The format pieces of `write!(buf, "{:<17} {:>2}", destination,
relative_arrival)` in `render_line`. -/
def passageRowChunks (p : TramNextPassage) : List Chunk :=
  padLeftAlignChunks 17 p.destination ++ [Chunk.cstr [' ']] ++
    padRightAlignChunks 2 (decDigits p.relative_arrival)

def noPassage1 : Str := "Pas de passage dans".data

def noPassage2 : Str := 'l' :: Char.ofNat 39 :: "heure...".data

/-- Row `i + 1` of the passage loop (`next_passages` is a
`heapless::Vec<_, 3>`, so `i < 3`); rows without a passage stay empty. -/
def rowFor (ps : List TramNextPassage) (i : Nat) : Str :=
  match ps.get? i with
  | some p => writeChunks ROW_CAP [] (passageRowChunks p)
  | none => []

/-- The `new_buffer` of `render_line` before space padding: row 0 is the
line name; rows 1.. are the passage rows or the fixed no-passage message;
`write!(new_buffer[3], "{:>20}", update_at)` then appends to whatever the
passage loop left in row 3 (empty unless there is a third passage). -/
def composeBuffer (line : Str) (d : TramDirectionState) : List Str :=
  if d.next_passages.isEmpty then
    [push_str ROW_CAP [] line, push_str ROW_CAP [] noPassage1,
     push_str ROW_CAP [] noPassage2,
     writeChunks ROW_CAP [] (padRightAlignChunks 20 d.update_at)]
  else
    [push_str ROW_CAP [] line, rowFor d.next_passages 0,
     rowFor d.next_passages 1,
     writeChunks ROW_CAP (rowFor d.next_passages 2)
       (padRightAlignChunks 20 d.update_at)]

/-- `pad_to_width` (src/lcd.rs): push `width - s.len()` spaces, each push
failing silently when the `String<20>` is full. -/
def pad_to_width (s : Str) (width : Nat) : Str :=
  (List.replicate (width - byteLen s) ' ').foldl (pushc ROW_CAP) s

/-- The four rows `render_line` diffs against the display, after
`pad_to_width(&mut new_buffer[i], width + 1)`. -/
def paddedBuffer (line : Str) (d : TramDirectionState) : List Str :=
  (composeBuffer line d).map (fun r => pad_to_width r LCD_COLS)

/-- The device primitives the renderer invokes on the `Lcd`. -/
inductive LcdWrite where
  | setCursor (row col : Nat)
  | print (s : Str)
  | clear
deriving DecidableEq

/-- `LcdRenderer`'s own state: the single-slot last-rendered cache and the
shadow buffer of what the device currently shows. -/
structure LcdRenderer where
  last_rendered : Option TramDirectionState
  last_rendered_line : Option Str
  display_buffer : List Str
deriving DecidableEq

/-- `LcdRenderer::new`: empty cache, four empty shadow rows. -/
def initRenderer : LcdRenderer := ⟨none, none, [[], [], [], []]⟩

/-- The diff loop of `render_line`: each row that differs from the shadow
buffer gets a `set_cursor` and a `print`. -/
def diffWrites (old new : List Str) : List LcdWrite :=
  ((List.range 4).map (fun i =>
    if old.getD i [] = new.getD i [] then []
    else [LcdWrite.setCursor i 0, LcdWrite.print (new.getD i [])])).flatten

/-- `LcdRenderer::render_line`: skip everything when both the direction
state and the line name equal the last rendered ones; otherwise compose,
record the new cache, and write the differing rows (the shadow buffer ends
up equal to the new buffer). -/
def render_line (r : LcdRenderer) (line : Str) (d : TramDirectionState) :
    LcdRenderer × List LcdWrite :=
  if r.last_rendered = some d ∧ r.last_rendered_line = some line then (r, [])
  else
    let nb := paddedBuffer line d
    (⟨some d, some line, nb⟩, diffWrites r.display_buffer nb)

/-- `wrap_text`'s loop: break with `'\n'` whenever the running column
count reaches the width; a failing push into the `String<80>` output
returns early. -/
def wrapGo (line_width : Nat) : Str → Str → Nat → Str
  | [], out, _ => out
  | c :: rest, out, current_width =>
    if line_width ≤ current_width then
      if byteLen out + 1 ≤ 80 then
        if byteLen (out ++ ['\n']) + Char.utf8Size c ≤ 80 then
          wrapGo line_width rest (out ++ ['\n', c]) 1
        else out ++ ['\n']
      else out
    else
      if byteLen out + Char.utf8Size c ≤ 80 then wrapGo line_width rest (out ++ [c]) (current_width + 1)
      else out

/-- `wrap_text` (src/lcd.rs) into a fresh `String<80>`. -/
def wrap_text (input : Str) (line_width : Nat) : Str := wrapGo line_width input [] 0

/-- `LcdRenderer::render` (the `TramDisplay` impl): with no lines, clear
and print the wrapped status message if there is one; otherwise resolve
the cursor with `get` (out-of-range cursors render nothing) and delegate
to `render_line`.  Returns the new renderer state and the device writes. -/
def render (r : LcdRenderer) (state : UiState) : LcdRenderer × List LcdWrite :=
  if state.lines.isEmpty then
    match state.current_message with
    | some message =>
      (r, [LcdWrite.clear, LcdWrite.print (wrap_text message LCD_COLS)])
    | none => (r, [])
  else
    match state.lines.get? state.current_line with
    | none => (r, [])
    | some line =>
      match line.directions.get? state.current_direction_id with
      | some d => render_line r line.line d
      | none => (r, [])

/- ## Byte-length lemmas -/

lemma byteLen_nil : byteLen [] = 0 := rfl

lemma byteLen_cons (c : Char) (s : Str) :
    byteLen (c :: s) = Char.utf8Size c + byteLen s := by
  simp [byteLen]

lemma byteLen_append (a b : Str) : byteLen (a ++ b) = byteLen a + byteLen b := by
  simp [byteLen]

lemma utf8Size_space : Char.utf8Size ' ' = 1 := by decide

lemma byteLen_replicate_space (k : Nat) : byteLen (List.replicate k ' ') = k := by
  induction k with
  | zero => rfl
  | succ n ih => rw [List.replicate_succ, byteLen_cons, ih, utf8Size_space]; omega

lemma byteLen_of_ascii {s : Str} (h : asciiStr s) : byteLen s = s.length := by
  induction s with
  | nil => rfl
  | cons c t ih =>
    rw [byteLen_cons, h c (List.mem_cons_self c t),
      ih (fun x hx => h x (List.mem_cons_of_mem c hx)), List.length_cons]
    omega

/- ## Split / join lemmas -/

lemma splitChar_ne_nil (sep : Char) (s : Str) : splitChar sep s ≠ [] := by
  cases s with
  | nil => simp [splitChar]
  | cons c rest =>
    simp only [splitChar]
    split
    · simp
    · split <;> simp

lemma splitChar_of_not_mem {sep : Char} {s : Str} (h : sep ∉ s) :
    splitChar sep s = [s] := by
  induction s with
  | nil => rfl
  | cons c rest ih =>
    have hc : ¬c = sep := by
      intro hcs; exact h (hcs ▸ List.mem_cons_self c rest)
    rw [splitChar, if_neg hc, ih (fun hm => h (List.mem_cons_of_mem c hm))]

lemma splitChar_append_sep {sep : Char} {x : Str} (t : Str) (h : sep ∉ x) :
    splitChar sep (x ++ sep :: t) = x :: splitChar sep t := by
  induction x with
  | nil => simp [splitChar]
  | cons c rest ih =>
    have hc : ¬c = sep := by
      intro hcs; exact h (hcs ▸ List.mem_cons_self c rest)
    rw [List.cons_append, splitChar, if_neg hc,
      ih (fun hm => h (List.mem_cons_of_mem c hm))]

lemma splitChar_joinSep {sep : Char} {parts : List Str} (hne : parts ≠ [])
    (h : ∀ p ∈ parts, sep ∉ p) :
    splitChar sep (joinSep sep parts) = parts := by
  induction parts with
  | nil => exact absurd rfl hne
  | cons x xs ih =>
    cases xs with
    | nil =>
      rw [joinSep, splitChar_of_not_mem (h x (List.mem_cons_self x []))]
    | cons y ys =>
      rw [joinSep, splitChar_append_sep _ (h x (List.mem_cons_self x (y :: ys))),
        ih (by simp) (fun p hp => h p (List.mem_cons_of_mem x hp))]

/- ## updateFirst lemmas -/

lemma set_get_self {α : Type} (l : List α) (i : Nat) (a : α) (h : l.get? i = some a) :
    l.set i a = l := by
  induction l generalizing i with
  | nil => simp at h
  | cons x xs ih =>
    cases i with
    | zero =>
      rw [List.get?_cons_zero] at h
      injection h with h
      simp [List.set, h]
    | succ j =>
      rw [List.get?_cons_succ] at h
      simp [List.set, ih j h]

lemma updateFirst_spec {α : Type} {p : α → Bool} {f : α → α} {xs ys : List α}
    (h : updateFirst p f xs = some ys) :
    ∃ i x, xs.get? i = some x ∧ p x = true ∧
      (∀ k, k < i → ∀ y, xs.get? k = some y → p y = false) ∧ ys = xs.set i (f x) := by
  induction xs generalizing ys with
  | nil => simp [updateFirst] at h
  | cons x xs ih =>
    by_cases hp : p x
    · refine ⟨0, x, rfl, hp, fun k hk => absurd hk (Nat.not_lt_zero k), ?_⟩
      simp [updateFirst, hp] at h
      simp [List.set, ← h]
    · cases hrec : updateFirst p f xs with
      | none => simp [updateFirst, hp, hrec] at h
      | some zs =>
        simp [updateFirst, hp, hrec] at h
        obtain ⟨i, w, hi, hw, hfirst, hzs⟩ := ih hrec
        refine ⟨i + 1, w, by simpa using hi, hw, ?_, ?_⟩
        · intro k hk y hy
          cases k with
          | zero =>
            simp at hy
            simpa [hy] using Bool.of_not_eq_true hp
          | succ j =>
            exact hfirst j (Nat.lt_of_succ_lt_succ hk) y (by simpa using hy)
        · simp [List.set, ← h, hzs]

lemma updateFirst_of_first {α : Type} {p : α → Bool} (f : α → α) {xs : List α} {i : Nat}
    {x : α} (hi : xs.get? i = some x) (hx : p x = true)
    (hfirst : ∀ k, k < i → ∀ y, xs.get? k = some y → p y = false) :
    updateFirst p f xs = some (xs.set i (f x)) := by
  induction xs generalizing i with
  | nil => simp at hi
  | cons z zs ih =>
    cases i with
    | zero =>
      simp at hi
      subst hi
      simp [updateFirst, hx, List.set]
    | succ j =>
      have hz : p z = false := hfirst 0 (Nat.succ_pos j) z rfl
      have := ih (by simpa using hi)
        (fun k hk y hy => hfirst (k + 1) (Nat.succ_lt_succ hk) y (by simpa using hy))
      simp [updateFirst, hz, this, List.set]

lemma updateFirst_none {α : Type} {p : α → Bool} {f : α → α} {xs : List α}
    (h : updateFirst p f xs = none) : ∀ x ∈ xs, p x = false := by
  induction xs with
  | nil => simp
  | cons z zs ih =>
    intro x hx
    by_cases hz : p z
    · simp [updateFirst, hz] at h
    · cases hrec : updateFirst p f zs with
      | none =>
        rcases List.mem_cons.1 hx with hx | hx
        · simpa [hx] using Bool.of_not_eq_true hz
        · exact ih hrec x hx
      | some ws => simp [updateFirst, hz, hrec] at h

lemma updateFirst_length {α : Type} {p : α → Bool} {f : α → α} {xs ys : List α}
    (h : updateFirst p f xs = some ys) : ys.length = xs.length := by
  obtain ⟨i, x, _, _, _, hys⟩ := updateFirst_spec h
  simp [hys]

lemma updateFirst_map_eq {α β : Type} {p : α → Bool} {f : α → α} {xs ys : List α}
    (g : α → β) (hgf : ∀ x, p x = true → g (f x) = g x)
    (h : updateFirst p f xs = some ys) : ys.map g = xs.map g := by
  obtain ⟨i, x, hi, hx, _, hys⟩ := updateFirst_spec h
  have : (xs.map g).get? i = some (g x) := by
    rw [List.get?_map, hi]; rfl
  rw [hys, List.map_set, hgf x hx, set_get_self _ _ _ this]

/- ## Passage-record extraction (decoder helpers) -/

/-- What a single middle record of the payload contributes: a record with
at least three pipe fields and a parseable `u8` arrival yields a passage,
any other record nothing. -/
def recPassage (r : Str) : Option TramNextPassage :=
  match splitChar '|' r with
  | d :: a :: _ :: _ => (parse_uint U8 a).map (fun v => ⟨push_str 32 [] d, v⟩)
  | _ => none

/-- A record the passage loop handles without rejecting the message:
either fewer than three pipe fields (skipped), or a parseable arrival. -/
def goodOrShort (r : Str) : Bool :=
  match splitChar '|' r with
  | _ :: _ :: _ :: _ => (recPassage r).isSome
  | _ => true

lemma fold_passageStep (recs : List Str) (acc : List TramNextPassage)
    (hacc : acc.length ≤ 3) (h : ∀ r ∈ recs, goodOrShort r = true) :
    recs.foldl passageStep (some acc) =
      some ((acc ++ recs.filterMap recPassage).take 3) := by
  induction recs generalizing acc with
  | nil =>
    simp [List.take_of_length_le hacc]
  | cons r rs ih =>
    have hr := h r (List.mem_cons_self r rs)
    have hrs : ∀ x ∈ rs, goodOrShort x = true :=
      fun x hx => h x (List.mem_cons_of_mem r hx)
    rcases hsp : splitChar '|' r with _ | ⟨d, _ | ⟨a, _ | ⟨e, es⟩⟩⟩
    · simp only [List.foldl_cons, passageStep, hsp, List.filterMap_cons, recPassage]
      exact ih acc hacc hrs
    · simp only [List.foldl_cons, passageStep, hsp, List.filterMap_cons, recPassage]
      exact ih acc hacc hrs
    · simp only [List.foldl_cons, passageStep, hsp, List.filterMap_cons, recPassage]
      exact ih acc hacc hrs
    · have hsome : (recPassage r).isSome := by
        simpa [goodOrShort, hsp] using hr
      rcases hv : parse_uint U8 a with _ | v
      · simp [recPassage, hsp, hv] at hsome
      · have hrp : recPassage r = some ⟨push_str 32 [] d, v⟩ := by
          simp [recPassage, hsp, hv]
        have hstep :
            passageStep (some acc) r =
              some (vecPush 3 acc ⟨push_str 32 [] d, v⟩) := by
          simp [passageStep, hsp, hv]
        by_cases hlt : acc.length < 3
        · rw [List.foldl_cons, hstep]
          have : vecPush 3 acc ⟨push_str 32 [] d, v⟩ = acc ++ [⟨push_str 32 [] d, v⟩] := by
            rw [vecPush, if_pos hlt]
          rw [this, ih _ (by simp; omega) hrs, List.filterMap_cons, hrp]
          rw [List.append_assoc, List.singleton_append]
        · have h3 : acc.length = 3 := by omega
          rw [List.foldl_cons, hstep]
          have : vecPush 3 acc ⟨push_str 32 [] d, v⟩ = acc := by
            rw [vecPush, if_neg hlt]
          rw [this, ih _ hacc hrs, List.filterMap_cons, hrp]
          rw [List.take_append_of_le_length (by omega),
            List.take_append_of_le_length (by omega)]

/-- All-good record lists decode to exactly one passage per record. -/
lemma filterMap_recPassage_length {recs : List Str}
    (h : ∀ r ∈ recs, (recPassage r).isSome) :
    (recs.filterMap recPassage).length = recs.length := by
  induction recs with
  | nil => rfl
  | cons r rs ih =>
    have hr := h r (List.mem_cons_self r rs)
    rcases hv : recPassage r with _ | p
    · rw [hv] at hr; simp at hr
    · rw [List.filterMap_cons, hv, List.length_cons,
        ih (fun x hx => h x (List.mem_cons_of_mem r hx))]
      rfl

/-- Shared shape of a successful decode of a well-formed payload
`lineRec \n recs... \n ts`: the line name comes from the first payload
record, the timestamp from the last, and the middle records contribute
`filterMap recPassage`, capped at 3. -/
lemma parse_wellformed {topic dstr : Str} {trest : List Str} {did : Nat}
    (htopic : (splitChar '/' topic).reverse = dstr :: trest) (htrest : trest ≠ [])
    (hdid : parse_uint U32 dstr = some did)
    (lineRec ts : Str) (recs : List Str)
    (hnl : ∀ p ∈ lineRec :: recs ++ [ts], '\n' ∉ p)
    (hgood : ∀ r ∈ recs, goodOrShort r = true) :
    parse_mqtt_event topic (joinSep '\n' (lineRec :: recs ++ [ts])) =
      some (.UpdateDirection (push_str 16 [] lineRec) did
        ((recs.filterMap recPassage).take 3) (push_str 10 [] ts)) := by
  cases trest with
  | nil => exact absurd rfl htrest
  | cons t0 ts0 =>
    have hsplit : splitChar '\n' (joinSep '\n' (lineRec :: recs ++ [ts])) =
        lineRec :: (recs ++ [ts]) := by
      rw [splitChar_joinSep (by simp) hnl]; rfl
    simp only [parse_mqtt_event, htopic, hsplit, List.getLast?_concat,
      List.dropLast_concat, fold_passageStep recs [] (by simp) hgood, hdid,
      List.nil_append]

lemma push_str_empty (cap : Nat) (s : Str) :
    push_str cap [] s = if byteLen s ≤ cap then s else [] := by
  simp [push_str, byteLen_nil]

/- ## C1 -/

/-- C1, counterexample: decoding topic `x/LineA/2` with payload
`Downtown|4|x\nUptown|9|x\n12:45` does NOT yield the command the claim
states (line `LineA`, passages Downtown/4 and Uptown/9): the decoder takes
the line name from the first payload record and starts the passage loop
only after it. -/
theorem c1_counterexample :
    parse_mqtt_event "x/LineA/2".data "Downtown|4|x\nUptown|9|x\n12:45".data ≠
      some (.UpdateDirection "LineA".data 2
        [⟨"Downtown".data, 4⟩, ⟨"Uptown".data, 9⟩] "12:45".data) := by
  decide

/-- C1, amended: decoding the topic `x/LineA/2` with payload
`Downtown|4|x\nUptown|9|x\n12:45` yields `UpdateDirection` with line
`Downtown|4|x` (the first payload record; the topic's line component is
discarded), direction_id 2, next_passages `[{Uptown, 9}]` (only the
records strictly between the first and the last are passage records), and
update_at `12:45`. -/
theorem c1_amended :
    parse_mqtt_event "x/LineA/2".data "Downtown|4|x\nUptown|9|x\n12:45".data =
      some (.UpdateDirection "Downtown|4|x".data 2
        [⟨"Uptown".data, 9⟩] "12:45".data) := by
  decide

/- ## C2 -/

/-- C2, counterexample: the payload `Uptown|9|x\n12:45` consists of N = 1
passage record followed by the trailing timestamp line, yet decoding
yields a command with 0 passages (the first record is consumed as the
line name), not min(1, 3) = 1. -/
theorem c2_counterexample :
    parse_mqtt_event "x/LineA/2".data "Uptown|9|x\n12:45".data =
      some (.UpdateDirection "Uptown|9|x".data 2 [] "12:45".data) ∧
    List.length ([] : List TramNextPassage) ≠ min 1 3 := by
  constructor
  · decide
  · decide

/-- C2, amended: for every well-formed payload consisting of a line-name
record, then N passage records (each with at least three pipe-separated
fields and an arrival parseable as `u8`), then a trailing timestamp line,
decoding the message yields an `UpdateDirection` whose `next_passages`
has length `min N 3` (earliest-listed entries kept) and whose `update_at`
equals the trailing line when it fits in 10 bytes and is empty otherwise
(no error either way), and applying the command to the initial empty
model yields exactly one line with that one `DirectionState`. -/
theorem c2_amended (topic dstr : Str) (trest : List Str) (did : Nat)
    (htopic : (splitChar '/' topic).reverse = dstr :: trest) (htrest : trest ≠ [])
    (hdid : parse_uint U32 dstr = some did)
    (lineRec ts : Str) (recs : List Str)
    (hnl : ∀ p ∈ lineRec :: recs ++ [ts], '\n' ∉ p)
    (hgood : ∀ r ∈ recs, 3 ≤ (splitChar '|' r).length ∧ (recPassage r).isSome) :
    parse_mqtt_event topic (joinSep '\n' (lineRec :: recs ++ [ts])) =
      some (.UpdateDirection (push_str 16 [] lineRec) did
        ((recs.filterMap recPassage).take 3)
        (if byteLen ts ≤ 10 then ts else [])) ∧
    ((recs.filterMap recPassage).take 3).length = min recs.length 3 ∧
    apply_ui_command init_ui_state
        (.UpdateDirection (push_str 16 [] lineRec) did
          ((recs.filterMap recPassage).take 3)
          (if byteLen ts ≤ 10 then ts else [])) =
      ⟨[⟨push_str 16 [] lineRec,
          [⟨if byteLen ts ≤ 10 then ts else [], did,
            (recs.filterMap recPassage).take 3⟩]⟩], none, 0, 0⟩ := by
  refine ⟨?_, ?_, ?_⟩
  · have hg : ∀ r ∈ recs, goodOrShort r = true := by
      intro r hr
      obtain ⟨hlen, hsome⟩ := hgood r hr
      rcases hsp : splitChar '|' r with _ | ⟨d, _ | ⟨a, _ | ⟨e, es⟩⟩⟩ <;>
        rw [hsp] at hlen <;> simp at hlen
      simpa [goodOrShort, hsp] using hsome
    rw [parse_wellformed htopic htrest hdid lineRec ts recs hnl hg, push_str_empty 10 ts]
  · rw [List.length_take,
      filterMap_recPassage_length (fun r hr => (hgood r hr).2), Nat.min_comm]
  · rfl

/-- C2 witness: a concrete two-record payload decoded and applied. -/
theorem c2_witness :
    parse_mqtt_event "x/LineA/2".data
        (joinSep '\n' ("Tram C".data :: ["Gare|3|x".data, "Centre|12|x".data] ++ ["12:45".data])) =
      some (.UpdateDirection (push_str 16 [] "Tram C".data) 2
        ((["Gare|3|x".data, "Centre|12|x".data].filterMap recPassage).take 3)
        (if byteLen "12:45".data ≤ 10 then "12:45".data else [])) ∧
    ((["Gare|3|x".data, "Centre|12|x".data].filterMap recPassage).take 3).length =
      min ["Gare|3|x".data, "Centre|12|x".data].length 3 ∧
    apply_ui_command init_ui_state
        (.UpdateDirection (push_str 16 [] "Tram C".data) 2
          ((["Gare|3|x".data, "Centre|12|x".data].filterMap recPassage).take 3)
          (if byteLen "12:45".data ≤ 10 then "12:45".data else [])) =
      ⟨[⟨push_str 16 [] "Tram C".data,
          [⟨if byteLen "12:45".data ≤ 10 then "12:45".data else [], 2,
            (["Gare|3|x".data, "Centre|12|x".data].filterMap recPassage).take 3⟩]⟩],
        none, 0, 0⟩ :=
  c2_amended "x/LineA/2".data "2".data ["LineA".data, "x".data] 2 (by decide)
    (by decide) (by decide) "Tram C".data "12:45".data
    ["Gare|3|x".data, "Centre|12|x".data] (by decide) (by decide)

/- ## C6 -/

/-- C6, counterexample: the middle record `Uptown|9` has exactly two
pipe-separated fields, and the claim says it yields the passage
`{Uptown, 9}`; the decoder requires a third field and skips it, decoding
zero passages. -/
theorem c6_counterexample :
    parse_mqtt_event "x/LineA/2".data "T\nUptown|9\n12:45".data =
      some (.UpdateDirection "T".data 2 [] "12:45".data) ∧
    some (UiCommand.UpdateDirection "T".data 2 [] "12:45".data) ≠
      some (.UpdateDirection "T".data 2 [⟨"Uptown".data, 9⟩] "12:45".data) := by
  constructor
  · decide
  · decide

/-- C6, amended: in every well-formed message, each payload record
strictly between the first (line name) and the last (timestamp) behaves
as follows: with at least THREE pipe-separated fields it yields a passage
whose destination is the first field (empty if over 32 bytes) and whose
arrival is the second field parsed as a `u8`, further fields ignored;
with fewer than three fields it is skipped without rejecting the message;
the surviving passages are capped at 3. -/
theorem c6_amended (topic dstr : Str) (trest : List Str) (did : Nat)
    (htopic : (splitChar '/' topic).reverse = dstr :: trest) (htrest : trest ≠ [])
    (hdid : parse_uint U32 dstr = some did)
    (lineRec ts : Str) (recs : List Str)
    (hnl : ∀ p ∈ lineRec :: recs ++ [ts], '\n' ∉ p)
    (hmix : ∀ r ∈ recs,
      (splitChar '|' r).length ≤ 2 ∨
        (3 ≤ (splitChar '|' r).length ∧ (recPassage r).isSome)) :
    parse_mqtt_event topic (joinSep '\n' (lineRec :: recs ++ [ts])) =
      some (.UpdateDirection (push_str 16 [] lineRec) did
        ((recs.filterMap recPassage).take 3) (push_str 10 [] ts)) := by
  have hg : ∀ r ∈ recs, goodOrShort r = true := by
    intro r hr
    rcases hmix r hr with hshort | ⟨hlen, hsome⟩
    · rcases hsp : splitChar '|' r with _ | ⟨d, _ | ⟨a, _ | ⟨e, es⟩⟩⟩ <;>
        simp [goodOrShort, hsp] <;> rw [hsp] at hshort <;> simp at hshort
    · rcases hsp : splitChar '|' r with _ | ⟨d, _ | ⟨a, _ | ⟨e, es⟩⟩⟩
      · rw [hsp] at hlen; simp at hlen
      · rw [hsp] at hlen; simp at hlen
      · rw [hsp] at hlen; simp at hlen
      · simpa [goodOrShort, hsp] using hsome
  exact parse_wellformed htopic htrest hdid lineRec ts recs hnl hg

/-- C6 witness: one three-field record kept, one two-field record
skipped. -/
theorem c6_witness :
    parse_mqtt_event "x/LineA/2".data
        (joinSep '\n' ("T".data :: ["Gare|3|x".data, "Uptown|9".data] ++ ["12:45".data])) =
      some (.UpdateDirection (push_str 16 [] "T".data) 2
        ((["Gare|3|x".data, "Uptown|9".data].filterMap recPassage).take 3)
        (push_str 10 [] "12:45".data)) :=
  c6_amended "x/LineA/2".data "2".data ["LineA".data, "x".data] 2 (by decide)
    (by decide) (by decide) "T".data "12:45".data
    ["Gare|3|x".data, "Uptown|9".data] (by decide) (by decide)

/- ## C7 -/

/-- C7: for every topic whose final path component (the first component
of `rsplit('/')`) does not parse as a `usize`, and every payload,
`parse_mqtt_event` rejects the whole message and produces no command. -/
theorem c7_topic_reject (topic text : Str)
    (h : parse_uint U32 (lastComponent topic) = none) :
    parse_mqtt_event topic text = none := by
  rcases hrev : (splitChar '/' topic).reverse with _ | ⟨dstr, rest⟩
  · simp [parse_mqtt_event, hrev]
  · cases rest with
    | nil => simp [parse_mqtt_event, hrev]
    | cons t0 ts0 =>
      have hd : parse_uint U32 dstr = none := by
        rw [lastComponent, hrev] at h
        exact h
      simp only [parse_mqtt_event, hrev]
      split
      · rfl
      · split
        · rfl
        · split
          · rfl
          · rw [hd]

/-- C7 witness: the concrete scenario `x/LineA/bad`. -/
theorem c7_witness : parse_mqtt_event "x/LineA/bad".data "T\n12:45".data = none :=
  c7_topic_reject "x/LineA/bad".data "T\n12:45".data (by decide)

/- ## Reducer invariants (C9, C10) -/

lemma vecPush_length_le {α : Type} (cap : Nat) (xs : List α) (x : α) :
    xs.length ≤ (vecPush cap xs x).length := by
  unfold vecPush
  split <;> simp

lemma vecPush_mem {α : Type} {cap : Nat} {xs : List α} {x y : α}
    (h : y ∈ vecPush cap xs x) : y ∈ xs ∨ y = x := by
  unfold vecPush at h
  split at h
  · simpa using h
  · exact Or.inl h

lemma vecPush_ne_nil {α : Type} (cap : Nat) (hcap : 0 < cap) (xs : List α) (x : α) :
    vecPush cap xs x ≠ [] := by
  unfold vecPush
  split
  · simp
  · intro hnil
    rename_i hge
    rw [hnil] at hge
    simp at hge
    omega

/-- The `updLine` mutation keeps the line's name. -/
lemma updLine_line (did : Nat) (ps : List TramNextPassage) (ua : Str)
    (x : TramLineState) : (updLine did ps ua x).line = x.line := by
  unfold updLine
  split <;> rfl

/-- The `updLine` mutation keeps the direction list non-empty. -/
lemma updLine_directions_ne_nil (did : Nat) (ps : List TramNextPassage) (ua : Str)
    (x : TramLineState) (h : x.directions ≠ []) :
    (updLine did ps ua x).directions ≠ [] := by
  unfold updLine
  cases hin : updateFirst (fun d => d.direction_id == did)
      (updDir ps ua) x.directions with
  | none =>
    show vecPush 2 x.directions ⟨ua, did, ps⟩ ≠ []
    exact vecPush_ne_nil 2 (by omega) x.directions _
  | some ds =>
    show ds ≠ []
    have hlen := updateFirst_length hin
    intro hnil
    rw [hnil] at hlen
    have := List.length_pos.2 h
    simp at hlen
    omega

/-- `UpdateDirection` never shrinks the line list and leaves the cursor
and the status message untouched. -/
lemma apply_update_shape (s : UiState) (line ua : Str) (did : Nat)
    (ps : List TramNextPassage) :
    s.lines.length ≤ (apply_ui_command s (.UpdateDirection line did ps ua)).lines.length ∧
    (apply_ui_command s (.UpdateDirection line did ps ua)).current_line = s.current_line ∧
    (apply_ui_command s (.UpdateDirection line did ps ua)).current_direction_id =
      s.current_direction_id ∧
    (apply_ui_command s (.UpdateDirection line did ps ua)).current_message =
      s.current_message := by
  simp only [apply_ui_command]
  cases hup : updateFirst (fun l => l.line == line)
      (updLine did ps ua) s.lines with
  | none => simpa using vecPush_length_le 8 s.lines _
  | some ls => simp [updateFirst_length hup]

/-- The cursor invariant of C9, strengthened so it is inductive. -/
def uiInv (s : UiState) : Prop :=
  (s.lines = [] → s.current_line = 0) ∧
    (s.lines ≠ [] → s.current_line < s.lines.length)

lemma uiInv_apply (s : UiState) (cmd : UiCommand) (h : uiInv s) :
    uiInv (apply_ui_command s cmd) := by
  obtain ⟨h0, hlt⟩ := h
  cases cmd with
  | UpdateMessage m =>
    exact ⟨fun he => h0 he, fun hne => hlt hne⟩
  | NextScreen =>
    by_cases hemp : s.lines.isEmpty = true
    · simpa [apply_ui_command, hemp] using ⟨h0, hlt⟩
    · have hne : s.lines ≠ [] := fun he => hemp (by simp [he])
      have hpos : 0 < s.lines.length := List.length_pos.2 hne
      simp only [apply_ui_command, if_neg hemp]
      split
      · exact ⟨fun he => absurd he hne, fun _ => Nat.mod_lt _ hpos⟩
      · exact ⟨fun he => absurd he hne, fun _ => hlt hne⟩
  | UpdateDirection line did ps ua =>
    obtain ⟨hlen, hcl, _, _⟩ := apply_update_shape s line ua did ps
    set t := apply_ui_command s (.UpdateDirection line did ps ua) with ht
    by_cases hne : s.lines = []
    · have h1 : 1 ≤ t.lines.length := by
        rw [ht]
        simp only [apply_ui_command]
        cases hup : updateFirst (fun l => l.line == line)
            (updLine did ps ua) s.lines with
        | none =>
          show 1 ≤ (vecPush 8 s.lines ⟨line, vecPush 2 [] ⟨ua, did, ps⟩⟩).length
          have := vecPush_ne_nil 8 (by omega) s.lines
            ⟨line, vecPush 2 [] ⟨ua, did, ps⟩⟩
          have := List.length_pos.2 this
          omega
        | some ls =>
          rw [hne] at hup
          simp [updateFirst] at hup
      refine ⟨fun he => ?_, fun _ => ?_⟩
      · rw [he] at h1
        simp at h1
      · rw [hcl, h0 hne]
        omega
    · have := hlt hne
      exact ⟨fun he => by
          have h1 := List.length_pos.2 hne
          have h2 : t.lines.length = 0 := by rw [he]; rfl
          omega,
        fun _ => by rw [hcl]; omega⟩

lemma uiInv_foldl (cmds : List UiCommand) (s : UiState) (h : uiInv s) :
    uiInv (cmds.foldl apply_ui_command s) := by
  induction cmds generalizing s with
  | nil => exact h
  | cons c cs ih => exact ih _ (uiInv_apply s c h)

/-- C9: starting from the initial empty model, after every sequence of
`apply_ui_command` steps, `current_line < lines.length` holds whenever
`lines` is non-empty — exactly the bound that makes the
`lines[current_line]` indexing inside `NextScreen` in-bounds. -/
theorem c9_cursor_in_bounds (cmds : List UiCommand)
    (h : (cmds.foldl apply_ui_command init_ui_state).lines ≠ []) :
    (cmds.foldl apply_ui_command init_ui_state).current_line <
      (cmds.foldl apply_ui_command init_ui_state).lines.length :=
  (uiInv_foldl cmds init_ui_state ⟨fun _ => rfl, fun hne => absurd rfl hne⟩).2 h

/-- C9 witness: one update then two screen advances. -/
theorem c9_witness :
    ([UiCommand.UpdateDirection "A".data 1 [] "t".data, UiCommand.NextScreen,
        UiCommand.NextScreen].foldl apply_ui_command init_ui_state).current_line <
      ([UiCommand.UpdateDirection "A".data 1 [] "t".data, UiCommand.NextScreen,
        UiCommand.NextScreen].foldl apply_ui_command init_ui_state).lines.length :=
  c9_cursor_in_bounds
    [UiCommand.UpdateDirection "A".data 1 [] "t".data, UiCommand.NextScreen,
      UiCommand.NextScreen] (by decide)

/-- Every line in the model keeps a non-empty direction list (C10). -/
def linesInv (s : UiState) : Prop := ∀ l ∈ s.lines, l.directions ≠ []

lemma linesInv_apply (s : UiState) (cmd : UiCommand) (h : linesInv s) :
    linesInv (apply_ui_command s cmd) := by
  cases cmd with
  | UpdateMessage m => exact h
  | NextScreen =>
    intro l hl
    refine h l ?_
    simp only [apply_ui_command] at hl
    by_cases hemp : s.lines.isEmpty = true
    · rw [if_pos hemp] at hl
      exact hl
    · rw [if_neg hemp] at hl
      split at hl
      · exact hl
      · exact hl
  | UpdateDirection line did ps ua =>
    intro l hl
    simp only [apply_ui_command] at hl
    cases hup : updateFirst (fun l => l.line == line)
        (updLine did ps ua) s.lines with
    | none =>
      rw [hup] at hl
      simp only [] at hl
      rcases vecPush_mem hl with hmem | hnew
      · exact h l hmem
      · rw [hnew]
        exact vecPush_ne_nil 2 (by omega) [] _
    | some ls =>
      rw [hup] at hl
      simp only [] at hl
      obtain ⟨i, x, hi, hx, _, hls⟩ := updateFirst_spec hup
      rw [hls] at hl
      rcases List.mem_or_eq_of_mem_set hl with hmem | hfx
      · exact h l hmem
      · have hxmem : x ∈ s.lines := List.get?_mem hi
        have hxne : x.directions ≠ [] := h x hxmem
        rw [hfx]
        exact updLine_directions_ne_nil did ps ua x hxne

lemma linesInv_foldl (cmds : List UiCommand) (s : UiState) (h : linesInv s) :
    linesInv (cmds.foldl apply_ui_command s) := by
  induction cmds generalizing s with
  | nil => exact h
  | cons c cs ih => exact ih _ (linesInv_apply s c h)

/-- C10: starting from the initial empty model, after every sequence of
`apply_ui_command` steps, every line present in the model has a non-empty
direction list. -/
theorem c10_directions_nonempty (cmds : List UiCommand) (l : TramLineState)
    (hl : l ∈ (cmds.foldl apply_ui_command init_ui_state).lines) :
    l.directions ≠ [] :=
  linesInv_foldl cmds init_ui_state (fun _ hx => absurd hx (List.not_mem_nil _)) l hl

/-- C10 witness: the single line created by one update. -/
theorem c10_witness :
    TramLineState.directions ⟨"A".data, [⟨"t".data, 1, []⟩]⟩ ≠ [] :=
  c10_directions_nonempty [UiCommand.UpdateDirection "A".data 1 [] "t".data]
    ⟨"A".data, [⟨"t".data, 1, []⟩]⟩ (by decide)

/- ## C8 -/

lemma take_map_append {α β : Type} (f : α → β) (A : List α) (B : List β) :
    ((A.map f) ++ B).take A.length = A.map f := by
  rw [show A.length = (A.map f).length from (List.length_map A f).symm, List.take_left]

lemma take_map_self {α β : Type} (f : α → β) (A : List α) :
    (A.map f).take A.length = A.map f := by
  rw [show A.length = (A.map f).length from (List.length_map A f).symm, List.take_length]

lemma lt_of_get?_eq_some {α : Type} {l : List α} {n : Nat} {a : α}
    (h : l.get? n = some a) : n < l.length := by
  rcases List.get?_eq_some.1 h with ⟨hlt, _⟩
  exact hlt

/-- The direction-id sequence of `updLine`'s result extends the old one:
existing ids keep their positions. -/
lemma updLine_ids_take (did : Nat) (ps : List TramNextPassage) (ua : Str)
    (x : TramLineState) :
    ((updLine did ps ua x).directions.map (fun d => d.direction_id)).take
        x.directions.length =
      x.directions.map (fun d => d.direction_id) := by
  unfold updLine
  cases hin : updateFirst (fun d => d.direction_id == did)
      (updDir ps ua) x.directions with
  | none =>
    show ((vecPush 2 x.directions ⟨ua, did, ps⟩).map (fun d => d.direction_id)).take
        x.directions.length = _
    unfold vecPush
    split
    · rw [List.map_append]
      exact take_map_append _ _ _
    · exact take_map_self _ _
  | some ds =>
    show (ds.map (fun d => d.direction_id)).take x.directions.length = _
    have hmap : ds.map (fun d => d.direction_id) =
        x.directions.map (fun d => d.direction_id) :=
      updateFirst_map_eq _ (by intro d _; rfl) hin
    rw [hmap]
    exact take_map_self _ _

/-- The line-name and direction-id positions of an existing model are
never changed by any command (no-reorder). -/
lemma no_reorder (s : UiState) (cmd : UiCommand) :
    ((apply_ui_command s cmd).lines.map (fun l => l.line)).take s.lines.length =
      s.lines.map (fun l => l.line) ∧
    ∀ k l l', s.lines.get? k = some l →
      (apply_ui_command s cmd).lines.get? k = some l' →
        (l'.directions.map (fun d => d.direction_id)).take l.directions.length =
          l.directions.map (fun d => d.direction_id) := by
  have hsame : ∀ t : UiState, t.lines = s.lines →
      (t.lines.map (fun l => l.line)).take s.lines.length =
        s.lines.map (fun l => l.line) ∧
      ∀ k l l', s.lines.get? k = some l → t.lines.get? k = some l' →
        (l'.directions.map (fun d => d.direction_id)).take l.directions.length =
          l.directions.map (fun d => d.direction_id) := by
    intro t hteq
    rw [hteq]
    refine ⟨take_map_self _ _, fun k l l' h1 h2 => ?_⟩
    rw [h1] at h2
    injection h2 with h2
    rw [← h2]
    exact take_map_self _ _
  cases cmd with
  | UpdateMessage m => exact hsame _ rfl
  | NextScreen =>
    refine hsame _ ?_
    simp only [apply_ui_command]
    split
    · rfl
    · split <;> rfl
  | UpdateDirection line did ps ua =>
    simp only [apply_ui_command]
    cases hup : updateFirst (fun l => l.line == line)
        (updLine did ps ua) s.lines with
    | none =>
      show ((vecPush 8 s.lines ⟨line, vecPush 2 [] ⟨ua, did, ps⟩⟩).map
          (fun l => l.line)).take s.lines.length = _ ∧ _
      constructor
      · unfold vecPush
        split
        · rw [List.map_append]
          exact take_map_append _ _ _
        · exact take_map_self _ _
      · intro k l l' h1 h2
        have hk : k < s.lines.length := lt_of_get?_eq_some h1
        have h2' : (vecPush 8 s.lines ⟨line, vecPush 2 [] ⟨ua, did, ps⟩⟩).get? k =
            s.lines.get? k := by
          unfold vecPush
          split
          · exact List.get?_append hk
          · rfl
        rw [h2', h1] at h2
        injection h2 with h2
        rw [← h2]
        exact take_map_self _ _
    | some ls =>
      obtain ⟨i, x, hi, hx, _, hls⟩ := updateFirst_spec hup
      have hmap : ls.map (fun l => l.line) = s.lines.map (fun l => l.line) :=
        updateFirst_map_eq _ (fun y _ => updLine_line did ps ua y) hup
      constructor
      · show (ls.map (fun l => l.line)).take s.lines.length = _
        rw [hmap]
        exact take_map_self _ _
      · intro k l l' h1 h2
        by_cases hki : k = i
        · subst hki
          rw [hi] at h1
          injection h1 with h1
          rw [hls, List.get?_set_eq, hi] at h2
          injection h2 with h2
          rw [← h2, ← h1]
          exact updLine_ids_take did ps ua x
        · rw [hls, List.get?_set_ne _ _ (fun he => hki he.symm), h1] at h2
          injection h2 with h2
          rw [← h2]
          exact take_map_self _ _

/-- C8: applying `UpdateDirection` for a `(line, direction_id)` pair
already in the model replaces exactly that `DirectionState`'s
`next_passages` and `update_at` in place (position `j` inside line `i` is
preserved, the `direction_id` is untouched), leaves every other line and
direction, the cursor and the status message unchanged, and no reducer
command ever reorders the existing line names or direction ids. -/
theorem c8_update_in_place (s : UiState) (lname ua : Str) (did : Nat)
    (ps : List TramNextPassage) (i j : Nat) (ls : TramLineState)
    (ds : TramDirectionState)
    (hi : s.lines.get? i = some ls) (hname : ls.line = lname)
    (hifirst : ∀ k, k < i → ∀ l, s.lines.get? k = some l → l.line ≠ lname)
    (hj : ls.directions.get? j = some ds) (hid : ds.direction_id = did)
    (hjfirst : ∀ k, k < j → ∀ d, ls.directions.get? k = some d →
      d.direction_id ≠ did) :
    apply_ui_command s (.UpdateDirection lname did ps ua) =
      { s with lines := (s.lines.set i
          ({ ls with directions := (ls.directions.set j
              ({ ds with next_passages := ps, update_at := ua })) })) } ∧
    ∀ cmd : UiCommand,
      ((apply_ui_command s cmd).lines.map (fun l => l.line)).take s.lines.length =
        s.lines.map (fun l => l.line) ∧
      ∀ k l l', s.lines.get? k = some l →
        (apply_ui_command s cmd).lines.get? k = some l' →
          (l'.directions.map (fun d => d.direction_id)).take l.directions.length =
            l.directions.map (fun d => d.direction_id) := by
  constructor
  · have hinner : updateFirst (fun d => d.direction_id == did)
        (updDir ps ua) ls.directions =
          some (ls.directions.set j (updDir ps ua ds)) :=
      updateFirst_of_first _ hj (by simp [hid])
        (fun k hk y hy => by
          rw [beq_eq_false_iff_ne]
          exact hjfirst k hk y hy)
    have hF : updLine did ps ua ls =
        { ls with directions := (ls.directions.set j
            ({ ds with next_passages := ps, update_at := ua })) } := by
      unfold updLine
      rw [hinner]
      rfl
    have houter : updateFirst (fun l => l.line == lname)
        (updLine did ps ua) s.lines =
          some (s.lines.set i (updLine did ps ua ls)) :=
      updateFirst_of_first _ hi (by simp [hname])
        (fun k hk y hy => by
          rw [beq_eq_false_iff_ne]
          exact hifirst k hk y hy)
    simp only [apply_ui_command, houter, hF]
  · exact fun cmd => no_reorder s cmd

/-- C8 witness: updating direction 7 of the only line, which sits at
position 1 of the direction list. -/
theorem c8_witness :
    apply_ui_command
        ⟨[⟨"A".data, [⟨"t1".data, 5, []⟩, ⟨"t2".data, 7, []⟩]⟩],
          some "m".data, 0, 1⟩
        (.UpdateDirection "A".data 7 [⟨"Gare".data, 3⟩] "t3".data) =
      ⟨[⟨"A".data, [⟨"t1".data, 5, []⟩, ⟨"t3".data, 7, [⟨"Gare".data, 3⟩]⟩]⟩],
        some "m".data, 0, 1⟩ := by
  have h := (c8_update_in_place
    ⟨[⟨"A".data, [⟨"t1".data, 5, []⟩, ⟨"t2".data, 7, []⟩]⟩], some "m".data, 0, 1⟩
    "A".data "t3".data 7 [⟨"Gare".data, 3⟩] 0 1
    ⟨"A".data, [⟨"t1".data, 5, []⟩, ⟨"t2".data, 7, []⟩]⟩ ⟨"t2".data, 7, []⟩
    (by decide) (by decide)
    (fun k hk l hl => absurd hk (by omega))
    (by decide) (by decide)
    (fun k hk d hd => by
      have hk0 : k = 0 := by omega
      subst hk0
      rw [List.get?_cons_zero] at hd
      injection hd with hd
      rw [← hd]
      decide)).1
  exact h

/- ## C3 -/

/-- Rendering the same `(line, direction)` twice through `render_line` is
a no-op the second time: the first call either already skipped (cache hit)
or recorded the rendered pair in the single-slot cache. -/
lemma render_line_idem (r : LcdRenderer) (l : Str) (d : TramDirectionState) :
    (render_line (render_line r l d).1 l d).2 = [] := by
  simp only [render_line]
  by_cases hc : r.last_rendered = some d ∧ r.last_rendered_line = some l
  · simp [hc]
  · simp [hc]

/-- C3, counterexample: with no lines and a status message set, `render`
clears and reprints the wrapped message on EVERY call — the second
identical render still performs device writes (there is no caching on the
status-message path). -/
theorem c3_counterexample :
    (render (render initRenderer ⟨[], some "hi".data, 0, 0⟩).1
        ⟨[], some "hi".data, 0, 0⟩).2 ≠ [] := by
  decide

/-- C3, amended: for every renderer state and every model state OTHER
than the empty-lines-with-status-message case, rendering the same model
twice in a row performs zero device writes on the second call. -/
theorem c3_amended (r : LcdRenderer) (s : UiState)
    (h : s.lines = [] → s.current_message = none) :
    (render (render r s).1 s).2 = [] := by
  by_cases hemp : s.lines.isEmpty = true
  · have hnil : s.lines = [] := List.isEmpty_iff.1 hemp
    simp [render, hemp, h hnil]
  · rcases hline : s.lines[s.current_line]? with _ | line
    · simp [render, hemp, hline]
    · rcases hdir : line.directions[s.current_direction_id]? with _ | d
      · simp [render, hemp, hline, hdir]
      · simp only [render, hemp, if_neg, List.get?_eq_getElem?, hline, hdir]
        exact render_line_idem r line.line d

/-- C3 witness: a one-line model rendered twice from the initial renderer
state. -/
theorem c3_witness :
    (render (render initRenderer
        ⟨[⟨"A".data, [⟨"12:45".data, 1, [⟨"Gare".data, 3⟩]⟩]⟩], none, 0, 0⟩).1
      ⟨[⟨"A".data, [⟨"12:45".data, 1, [⟨"Gare".data, 3⟩]⟩]⟩], none, 0, 0⟩).2 = [] :=
  c3_amended initRenderer
    ⟨[⟨"A".data, [⟨"12:45".data, 1, [⟨"Gare".data, 3⟩]⟩]⟩], none, 0, 0⟩
    (by decide)

/- ## C4: spec-side frame description -/

/-- Modelled from the spec (§4.4 step 3): pad a row with trailing spaces
to the display width. -/
def specPad (s : Str) (w : Nat) : Str := s ++ List.replicate (w - s.length) ' '

/-- Modelled from the spec (§4.4 step 3): a passage row is the
destination truncated to column-width-minus-3 (and padded to it),
followed by a right-aligned 2-digit arrival. -/
def specPassageRow (p : TramNextPassage) : Str :=
  specPad (p.destination.take 17) 17 ++ [' '] ++
    (List.replicate (2 - (decDigits p.relative_arrival).length) ' ' ++
      decDigits p.relative_arrival)

/-- Modelled from the spec (§4.4 step 3): middle row `i` (0-based, the
physical row `i + 1`) shows the `i`-th passage, or the fixed no-passage
message when the list is empty, or stays blank. -/
def specMidRow (d : TramDirectionState) (i : Nat) : Str :=
  if d.next_passages.isEmpty then (if i = 0 then noPassage1 else noPassage2)
  else
    match d.next_passages.get? i with
    | some p => specPassageRow p
    | none => []

/-- Modelled from the spec (§4.4 step 3): the full 4-row frame — line
name, two passage/message rows, and the update timestamp right-aligned to
the display width, every row padded with trailing spaces to the full
width. -/
def specBuffer (line : Str) (d : TramDirectionState) : List Str :=
  [specPad line 20, specPad (specMidRow d 0) 20, specPad (specMidRow d 1) 20,
   List.replicate (20 - d.update_at.length) ' ' ++ d.update_at]

lemma utf8Size_digit {m : Nat} (h : m < 10) :
    Char.utf8Size (Char.ofNat (48 + m)) = 1 := by
  interval_cases m <;> decide

lemma decDigitsGo_of_lt10 {n f : Nat} (h : n < 10) (hf : 0 < f) :
    decDigitsGo n f = [Char.ofNat (48 + n)] := by
  cases f with
  | zero => omega
  | succ g => rw [decDigitsGo, if_pos h]

lemma decDigits_of_lt10 {n : Nat} (h : n < 10) :
    decDigits n = [Char.ofNat (48 + n)] :=
  decDigitsGo_of_lt10 h (Nat.succ_pos n)

lemma decDigits_lt100 {n : Nat} (h : n < 100) :
    (decDigits n).length ≤ 2 ∧ byteLen (decDigits n) = (decDigits n).length := by
  by_cases h1 : n < 10
  · rw [decDigits_of_lt10 h1]
    refine ⟨by simp, ?_⟩
    rw [byteLen_cons, byteLen_nil, utf8Size_digit h1]
    simp
  · have h3 : n / 10 < 10 := by omega
    have h2 : decDigits n = [Char.ofNat (48 + n / 10)] ++ [Char.ofNat (48 + n % 10)] := by
      rw [decDigits, decDigitsGo, if_neg h1, decDigitsGo_of_lt10 h3 (by omega)]
    rw [h2]
    refine ⟨by simp, ?_⟩
    rw [byteLen_append, byteLen_cons, byteLen_nil, byteLen_cons, byteLen_nil,
      utf8Size_digit h3, utf8Size_digit (Nat.mod_lt n (by omega))]
    simp

/-- Byte size of one format piece. -/
def chunkBytes : Chunk → Nat
  | .cstr s => byteLen s
  | .cch c => Char.utf8Size c

/-- Text of one format piece. -/
def chunkStr : Chunk → Str
  | .cstr s => s
  | .cch c => [c]

/-- When the format pieces fit in the buffer, no piece fails and the
result is plain concatenation. -/
lemma writeChunks_fits {cap : Nat} {cs : List Chunk} (buf : Str)
    (h : byteLen buf + ((cs.map chunkBytes).sum) ≤ cap) :
    writeChunks cap buf cs = buf ++ (cs.map chunkStr).flatten := by
  induction cs generalizing buf with
  | nil => simp [writeChunks]
  | cons c rest ih =>
    cases c with
    | cstr s =>
      rw [List.map_cons, List.sum_cons] at h
      have hfit : byteLen buf + byteLen s ≤ cap := by
        have := h
        simp [chunkBytes] at this
        omega
      rw [writeChunks, if_pos hfit, ih (buf ++ s)
        (by rw [byteLen_append]; simp [chunkBytes] at h; omega)]
      simp [chunkStr]
    | cch ch =>
      rw [List.map_cons, List.sum_cons] at h
      have hfit : byteLen buf + Char.utf8Size ch ≤ cap := by
        have := h
        simp [chunkBytes] at this
        omega
      rw [writeChunks, if_pos hfit, ih (buf ++ [ch])
        (by rw [byteLen_append, byteLen_cons, byteLen_nil]; simp [chunkBytes] at h; omega)]
      simp [chunkStr]

lemma flatten_replicate_singleton (k : Nat) (c : Char) :
    (List.replicate k [c]).flatten = List.replicate k c := by
  induction k with
  | zero => rfl
  | succ n ih => simp [List.replicate_succ, ih]

lemma sum_replicate_nat (k v : Nat) : (List.replicate k v).sum = k * v := by
  induction k with
  | zero => simp
  | succ n ih => rw [List.replicate_succ, List.sum_cons, ih]; ring

lemma foldl_pushc_spaces (k : Nat) (buf : Str) (h : byteLen buf + k ≤ 20) :
    (List.replicate k ' ').foldl (pushc ROW_CAP) buf = buf ++ List.replicate k ' ' := by
  induction k generalizing buf with
  | zero => simp
  | succ n ih =>
    rw [List.replicate_succ, List.foldl_cons]
    have hp : pushc ROW_CAP buf ' ' = buf ++ [' '] := by
      unfold pushc
      rw [if_pos]
      rw [utf8Size_space]
      show byteLen buf + 1 ≤ 20
      omega
    rw [hp, ih (buf ++ [' '])
      (by rw [byteLen_append, byteLen_cons, byteLen_nil, utf8Size_space]; omega)]
    rw [List.append_assoc, List.singleton_append, ← List.replicate_succ]

lemma pad_to_width_eq {s : Str} (h : byteLen s ≤ 20) :
    pad_to_width s LCD_COLS = s ++ List.replicate (20 - byteLen s) ' ' := by
  unfold pad_to_width
  exact foldl_pushc_spaces (LCD_COLS - byteLen s) s (by show byteLen s + (20 - byteLen s) ≤ 20; omega)

lemma passage_row_eq_spec {p : TramNextPassage} (hd : asciiStr p.destination)
    (hlen : p.destination.length ≤ 17) (ha : p.relative_arrival < 100) :
    writeChunks ROW_CAP [] (passageRowChunks p) = specPassageRow p ∧
    byteLen (specPassageRow p) = 20 ∧ (specPassageRow p).length = 20 := by
  obtain ⟨hdl, hdb⟩ := decDigits_lt100 ha
  have hdest : byteLen p.destination = p.destination.length := byteLen_of_ascii hd
  have hbytes : ((passageRowChunks p).map chunkBytes).sum = 20 := by
    simp [passageRowChunks, padLeftAlignChunks, padRightAlignChunks, chunkBytes,
      List.map_append, List.map_replicate, List.sum_append, sum_replicate_nat,
      byteLen_cons, byteLen_nil, utf8Size_space, hdest]
    omega
  have hflat : ((passageRowChunks p).map chunkStr).flatten = specPassageRow p := by
    simp [passageRowChunks, padLeftAlignChunks, padRightAlignChunks, chunkStr,
      List.map_append, List.map_replicate, flatten_replicate_singleton,
      specPassageRow, specPad, List.take_of_length_le hlen]
  refine ⟨?_, ?_, ?_⟩
  · rw [writeChunks_fits [] (by rw [byteLen_nil, hbytes]; show 0 + 20 ≤ 20; omega),
      hflat, List.nil_append]
  · rw [specPassageRow, specPad, List.take_of_length_le hlen]
    simp only [byteLen_append, byteLen_replicate_space, byteLen_cons, byteLen_nil,
      utf8Size_space, hdest, hdb]
    omega
  · rw [specPassageRow, specPad, List.take_of_length_le hlen]
    simp
    omega

/-- Row 3 of the frame when nothing was written to it by the passage
loop: the right-aligned `update_at`, already exactly 20 chars. -/
lemma ua_row_eq {ua : Str} (hu : asciiStr ua) (hlen : ua.length ≤ 20) :
    writeChunks ROW_CAP [] (padRightAlignChunks 20 ua) =
      List.replicate (20 - ua.length) ' ' ++ ua ∧
    byteLen (List.replicate (20 - ua.length) ' ' ++ ua) = 20 := by
  have hub : byteLen ua = ua.length := byteLen_of_ascii hu
  have hbytes : ((padRightAlignChunks 20 ua).map chunkBytes).sum = 20 := by
    simp [padRightAlignChunks, chunkBytes, List.map_append, List.map_replicate,
      sum_replicate_nat, hub, utf8Size_space]
    omega
  constructor
  · rw [writeChunks_fits [] (by rw [byteLen_nil, hbytes]; show 0 + 20 ≤ 20; omega),
      List.nil_append]
    simp [padRightAlignChunks, chunkStr, List.map_append, List.map_replicate,
      flatten_replicate_singleton]
  · simp only [byteLen_append, byteLen_replicate_space, hub]
    omega

lemma rowFor_padded (ps : List TramNextPassage) (i : Nat)
    (hps : ∀ p ∈ ps, asciiStr p.destination ∧ p.destination.length ≤ 17 ∧
      p.relative_arrival < 100) :
    pad_to_width (rowFor ps i) LCD_COLS =
      specPad (match ps.get? i with
        | some p => specPassageRow p
        | none => []) 20 := by
  cases hgi : ps.get? i with
  | none =>
    have hrow : rowFor ps i = [] := by
      unfold rowFor
      rw [hgi]
    rw [hrow]
    decide
  | some p =>
    obtain ⟨ha1, ha2, ha3⟩ := hps p (List.get?_mem hgi)
    obtain ⟨heq, hb, hl⟩ := passage_row_eq_spec ha1 ha2 ha3
    have hrow : rowFor ps i = writeChunks ROW_CAP [] (passageRowChunks p) := by
      unfold rowFor
      rw [hgi]
    rw [hrow, heq, pad_to_width_eq (by omega), hb]
    simp [specPad, hl]

/-- C4, counterexample: an 18-char destination is NOT truncated to 17
columns — the arrival digits are clipped instead, so the composed frame
differs from the frame the claim describes. -/
theorem c4_counterexample :
    paddedBuffer "L".data ⟨"12:45".data, 2, [⟨"ABCDEFGHIJKLMNOPQR".data, 5⟩]⟩ ≠
      specBuffer "L".data ⟨"12:45".data, 2, [⟨"ABCDEFGHIJKLMNOPQR".data, 5⟩]⟩ := by
  decide

/-- C4, amended: whenever the renderer composes a frame for at most TWO
passages whose destinations are ASCII and fit in 17 columns and whose
arrivals are at most 99, with an ASCII line name (≤ 16 chars as the
`String<16>` bound guarantees) and ASCII timestamp (≤ 10 chars), the
padded 4-row buffer is exactly as the spec describes: row 0 the line
name, one row per passage (destination padded to 17, one space,
right-aligned 2-digit arrival), the fixed no-passage message rows when
the list is empty, the final row `update_at` right-aligned to the
20-column width, every row padded with trailing spaces to 20.  (With a
third passage, row 3 is taken by that passage and the `update_at` write
is clipped; longer destinations are not truncated at 17 but clipped at
the 20-byte row capacity.) -/
theorem c4_amended (line : Str) (d : TramDirectionState)
    (hline : asciiStr line) (hline16 : line.length ≤ 16)
    (hua : asciiStr d.update_at) (hua10 : d.update_at.length ≤ 10)
    (hn : d.next_passages.length ≤ 2)
    (hps : ∀ p ∈ d.next_passages, asciiStr p.destination ∧
      p.destination.length ≤ 17 ∧ p.relative_arrival < 100) :
    paddedBuffer line d = specBuffer line d := by
  obtain ⟨ua, did, ps⟩ := d
  have hbl : byteLen line = line.length := byteLen_of_ascii hline
  have h0 : pad_to_width (push_str ROW_CAP [] line) LCD_COLS = specPad line 20 := by
    rw [push_str_empty, if_pos (show byteLen line ≤ ROW_CAP by
      show byteLen line ≤ 20; omega)]
    rw [pad_to_width_eq (by omega), hbl]
    rfl
  obtain ⟨hua3, hua20⟩ := ua_row_eq hua (by omega)
  have h3 : pad_to_width
      (writeChunks ROW_CAP [] (padRightAlignChunks 20 ua)) LCD_COLS =
        List.replicate (20 - ua.length) ' ' ++ ua := by
    rw [hua3, pad_to_width_eq (by omega), hua20]
    simp
  by_cases hE : ps.isEmpty
  · have hnil : ps = [] := by simpa using hE
    subst hnil
    have hn1 : pad_to_width (push_str ROW_CAP [] noPassage1) LCD_COLS =
        specPad noPassage1 20 := by decide
    have hn2 : pad_to_width (push_str ROW_CAP [] noPassage2) LCD_COLS =
        specPad noPassage2 20 := by decide
    have hcompose : composeBuffer line ⟨ua, did, []⟩ =
        [push_str ROW_CAP [] line, push_str ROW_CAP [] noPassage1,
         push_str ROW_CAP [] noPassage2,
         writeChunks ROW_CAP [] (padRightAlignChunks 20 ua)] := rfl
    have hspec : specBuffer line ⟨ua, did, []⟩ =
        [specPad line 20, specPad noPassage1 20, specPad noPassage2 20,
         List.replicate (20 - ua.length) ' ' ++ ua] := rfl
    rw [paddedBuffer, hcompose, hspec, List.map_cons, List.map_cons,
      List.map_cons, List.map_cons, List.map_nil, h0, hn1, hn2, h3]
  · have hEf : ps.isEmpty = false := by simpa using hE
    have hg2 : ps.get? 2 = none := List.get?_eq_none.2 (by simpa using hn)
    have hrow2 : rowFor ps 2 = [] := by
      unfold rowFor
      rw [hg2]
    have hm0 := rowFor_padded ps 0 hps
    have hm1 := rowFor_padded ps 1 hps
    have hcompose : composeBuffer line ⟨ua, did, ps⟩ =
        [push_str ROW_CAP [] line, rowFor ps 0, rowFor ps 1,
         writeChunks ROW_CAP (rowFor ps 2) (padRightAlignChunks 20 ua)] := by
      unfold composeBuffer
      rw [if_neg (by simp [hEf])]
    have hsm0 : specMidRow ⟨ua, did, ps⟩ 0 =
        (match ps.get? 0 with
          | some p => specPassageRow p
          | none => []) := by
      unfold specMidRow
      rw [if_neg (by simp [hEf])]
    have hsm1 : specMidRow ⟨ua, did, ps⟩ 1 =
        (match ps.get? 1 with
          | some p => specPassageRow p
          | none => []) := by
      unfold specMidRow
      rw [if_neg (by simp [hEf])]
    have hspec : specBuffer line ⟨ua, did, ps⟩ =
        [specPad line 20, specPad (specMidRow ⟨ua, did, ps⟩ 0) 20,
         specPad (specMidRow ⟨ua, did, ps⟩ 1) 20,
         List.replicate (20 - ua.length) ' ' ++ ua] := rfl
    rw [paddedBuffer, hcompose, hspec, hsm0, hsm1, hrow2, List.map_cons,
      List.map_cons, List.map_cons, List.map_cons, List.map_nil, h0, hm0, hm1, h3]

/-- C4 witness: a frame with one short passage and one blank middle
row. -/
theorem c4_witness :
    paddedBuffer "Tram C".data ⟨"12:45".data, 1, [⟨"Gare".data, 3⟩]⟩ =
      specBuffer "Tram C".data ⟨"12:45".data, 1, [⟨"Gare".data, 3⟩]⟩ :=
  c4_amended "Tram C".data ⟨"12:45".data, 1, [⟨"Gare".data, 3⟩]⟩
    (by decide) (by decide) (by decide) (by decide) (by decide) (by decide)

/- ## C5 -/

/-- The direction-count list of the model, the shape `NextScreen` cycles
over. -/
def dirCounts (s : UiState) : List Nat := s.lines.map (fun l => l.directions.length)

/-- The cursor transition of `NextScreen` on a non-empty model, extracted
from `apply_ui_command`. -/
def cursorStep (ds : List Nat) (c : Nat × Nat) : Nat × Nat :=
  if ds.getD c.1 0 ≤ c.2 + 1 then ((c.1 + 1) % ds.length, 0) else (c.1, c.2 + 1)

lemma dirCounts_getD (s : UiState) (k : Nat) :
    (dirCounts s).getD k 0 = (s.lines.getD k default).directions.length := by
  exact List.getD_map s.lines default (fun l => l.directions.length)

lemma apply_nextScreen_eq (s : UiState) (hne : s.lines ≠ []) :
    apply_ui_command s .NextScreen =
      { s with
          current_line :=
            (cursorStep (dirCounts s) (s.current_line, s.current_direction_id)).1,
          current_direction_id :=
            (cursorStep (dirCounts s) (s.current_line, s.current_direction_id)).2 } := by
  have hemp : ¬s.lines.isEmpty = true := fun h => hne (List.isEmpty_iff.1 h)
  simp only [apply_ui_command, if_neg hemp]
  by_cases hc : (dirCounts s).getD s.current_line 0 ≤ s.current_direction_id + 1
  · have hstep : cursorStep (dirCounts s) (s.current_line, s.current_direction_id) =
        ((s.current_line + 1) % (dirCounts s).length, 0) := by
      unfold cursorStep
      rw [if_pos hc]
    rw [if_pos (by rw [← dirCounts_getD]; exact hc), hstep]
    simp [dirCounts]
  · have hstep : cursorStep (dirCounts s) (s.current_line, s.current_direction_id) =
        (s.current_line, s.current_direction_id + 1) := by
      unfold cursorStep
      rw [if_neg hc]
    rw [if_neg (by rw [← dirCounts_getD]; exact hc), hstep]

/-- A cursor that addresses an existing line and direction. -/
def validC (ds : List Nat) (c : Nat × Nat) : Prop :=
  c.1 < ds.length ∧ c.2 < ds.getD c.1 0

lemma psum_succ (ds : List Nat) (a : Nat) :
    (ds.take (a + 1)).sum = (ds.take a).sum + ds.getD a 0 := by
  rw [List.take_succ, List.sum_append, List.getD_eq_getElem?_getD]
  cases h : ds[a]? <;> simp [h]

lemma psum_mono (ds : List Nat) {a b : Nat} (h : a ≤ b) :
    (ds.take a).sum ≤ (ds.take b).sum := by
  induction b with
  | zero =>
    have ha : a = 0 := by omega
    subst ha
    exact Nat.le_refl _
  | succ n ih =>
    by_cases hab : a = n + 1
    · subst hab
      exact Nat.le_refl _
    · have h1 := ih (by omega)
      have h2 := psum_succ ds n
      omega

lemma getD_mem_of_lt {ds : List Nat} {k : Nat} (h : k < ds.length) :
    ds.getD k 0 ∈ ds := by
  rw [List.getD_eq_getElem?_getD, List.getElem?_eq_getElem h]
  exact List.getElem_mem h

/-- The flattened index of a valid cursor. -/
def toIdx (ds : List Nat) (c : Nat × Nat) : Nat := (ds.take c.1).sum + c.2

lemma toIdx_lt (ds : List Nat) {c : Nat × Nat} (h : validC ds c) :
    toIdx ds c < ds.sum := by
  obtain ⟨h1, h2⟩ := h
  have hs := psum_succ ds c.1
  have hle : (ds.take (c.1 + 1)).sum ≤ (ds.take ds.length).sum := psum_mono ds (by omega)
  rw [List.take_length] at hle
  unfold toIdx
  omega

lemma cursorStep_good (ds : List Nat) (hpos : ∀ x ∈ ds, 0 < x) {c : Nat × Nat}
    (h : validC ds c) :
    validC ds (cursorStep ds c) ∧
      toIdx ds (cursorStep ds c) = (toIdx ds c + 1) % ds.sum := by
  obtain ⟨h1, h2⟩ := h
  have hn : 0 < ds.length := by omega
  unfold cursorStep
  by_cases hc : ds.getD c.1 0 ≤ c.2 + 1
  · rw [if_pos hc]
    have heq : c.2 + 1 = ds.getD c.1 0 := by omega
    have hmod : (c.1 + 1) % ds.length < ds.length := Nat.mod_lt _ hn
    refine ⟨⟨hmod, hpos _ (getD_mem_of_lt hmod)⟩, ?_⟩
    show (ds.take ((c.1 + 1) % ds.length)).sum + 0 = _
    by_cases hwrap : c.1 + 1 < ds.length
    · rw [Nat.mod_eq_of_lt hwrap]
      have hs := psum_succ ds c.1
      have hlt2 : (ds.take (c.1 + 1)).sum < ds.sum := by
        have hs2 := psum_succ ds (c.1 + 1)
        have hg : 0 < ds.getD (c.1 + 1) 0 := hpos _ (getD_mem_of_lt hwrap)
        have hle : (ds.take (c.1 + 1 + 1)).sum ≤ (ds.take ds.length).sum :=
          psum_mono ds (by omega)
        rw [List.take_length] at hle
        omega
      rw [Nat.mod_eq_of_lt (show toIdx ds c + 1 < ds.sum by unfold toIdx; omega)]
      unfold toIdx
      omega
    · have hend : c.1 + 1 = ds.length := by omega
      have hs := psum_succ ds c.1
      have hsum : toIdx ds c + 1 = ds.sum := by
        unfold toIdx
        have : (ds.take (c.1 + 1)).sum = ds.sum := by
          rw [hend, List.take_length]
        omega
      rw [hend, Nat.mod_self, hsum, Nat.mod_self]
      simp
  · rw [if_neg hc]
    refine ⟨⟨h1, show c.2 + 1 < ds.getD c.1 0 by omega⟩, ?_⟩
    have hvalid2 : validC ds (c.1, c.2 + 1) :=
      ⟨h1, show c.2 + 1 < ds.getD c.1 0 by omega⟩
    have hlt2 : (ds.take c.1).sum + (c.2 + 1) < ds.sum := toIdx_lt ds hvalid2
    show (ds.take c.1).sum + (c.2 + 1) = (toIdx ds c + 1) % ds.sum
    rw [Nat.mod_eq_of_lt (show toIdx ds c + 1 < ds.sum by unfold toIdx; omega)]
    unfold toIdx
    omega

lemma toIdx_inj (ds : List Nat) {a b : Nat × Nat} (ha : validC ds a)
    (hb : validC ds b) (h : toIdx ds a = toIdx ds b) : a = b := by
  have key : ∀ x y : Nat × Nat, validC ds x → validC ds y → x.1 < y.1 →
      toIdx ds x < toIdx ds y := by
    intro x y hx hy hxy
    obtain ⟨hx1, hx2⟩ := hx
    obtain ⟨hy1, hy2⟩ := hy
    have h1 := psum_succ ds x.1
    have h2 : (ds.take (x.1 + 1)).sum ≤ (ds.take y.1).sum := psum_mono ds (by omega)
    unfold toIdx
    omega
  obtain ⟨a1, a2⟩ := a
  obtain ⟨b1, b2⟩ := b
  rcases Nat.lt_trichotomy a1 b1 with hlt | heq | hgt
  · have := key (a1, a2) (b1, b2) ha hb hlt
    omega
  · subst heq
    have h' : (ds.take a1).sum + a2 = (ds.take a1).sum + b2 := h
    have h2 : a2 = b2 := by omega
    rw [h2]
  · have := key (b1, b2) (a1, a2) hb ha hgt
    omega

lemma cursorStep_iterate (ds : List Nat) (hpos : ∀ x ∈ ds, 0 < x) {c : Nat × Nat}
    (h : validC ds c) (m : Nat) :
    validC ds ((cursorStep ds)^[m] c) ∧
      toIdx ds ((cursorStep ds)^[m] c) = (toIdx ds c + m) % ds.sum := by
  induction m with
  | zero =>
    refine ⟨h, ?_⟩
    simp [Nat.mod_eq_of_lt (toIdx_lt ds h)]
  | succ n ih =>
    obtain ⟨hv, hi⟩ := ih
    rw [Function.iterate_succ_apply']
    obtain ⟨hv2, hi2⟩ := cursorStep_good ds hpos hv
    refine ⟨hv2, ?_⟩
    rw [hi2, hi, Nat.mod_add_mod, Nat.add_assoc]

lemma cursorStep_cycle (ds : List Nat) (hpos : ∀ x ∈ ds, 0 < x) {c : Nat × Nat}
    (h : validC ds c) : (cursorStep ds)^[ds.sum] c = c := by
  obtain ⟨hv, hi⟩ := cursorStep_iterate ds hpos h ds.sum
  refine toIdx_inj ds hv h ?_
  rw [hi, Nat.add_mod_right, Nat.mod_eq_of_lt (toIdx_lt ds h)]

lemma apply_nextScreen_cursor (lines : List TramLineState) (msg : Option Str)
    (cl cd : Nat) (hne : lines ≠ []) :
    apply_ui_command ⟨lines, msg, cl, cd⟩ .NextScreen =
      ⟨lines, msg,
        (cursorStep (lines.map (fun l => l.directions.length)) (cl, cd)).1,
        (cursorStep (lines.map (fun l => l.directions.length)) (cl, cd)).2⟩ :=
  apply_nextScreen_eq ⟨lines, msg, cl, cd⟩ hne

lemma nextScreen_iterate (s : UiState) (hne : s.lines ≠ []) (m : Nat) :
    (fun t => apply_ui_command t .NextScreen)^[m] s =
      { s with
          current_line := ((cursorStep (dirCounts s))^[m]
            (s.current_line, s.current_direction_id)).1,
          current_direction_id := ((cursorStep (dirCounts s))^[m]
            (s.current_line, s.current_direction_id)).2 } := by
  induction m with
  | zero => rfl
  | succ n ih =>
    simp only [Function.iterate_succ_apply']
    rw [ih, apply_nextScreen_cursor s.lines s.current_message _ _ hne]
    rfl

/-- C5, counterexample: a model whose second line has an empty direction
list.  It has non-empty `lines` and its cursor `(0, 0)` addresses an
existing line and direction, and the total number of (line, direction)
pairs is K = 1, yet one `NextScreen` moves the cursor to line 1 — the
zero-direction line consumes a step of the cycle, so K steps do not
return the cursor. -/
theorem c5_counterexample :
    (⟨[⟨"A".data, [⟨"t".data, 1, []⟩]⟩, ⟨"B".data, []⟩], none, 0, 0⟩ :
        UiState).lines ≠ [] ∧
    ((fun t => apply_ui_command t UiCommand.NextScreen)^[
        ((⟨[⟨"A".data, [⟨"t".data, 1, []⟩]⟩, ⟨"B".data, []⟩], none, 0, 0⟩ :
          UiState).lines.map (fun l => l.directions.length)).sum]
        ⟨[⟨"A".data, [⟨"t".data, 1, []⟩]⟩, ⟨"B".data, []⟩], none, 0, 0⟩).current_line ≠
      (⟨[⟨"A".data, [⟨"t".data, 1, []⟩]⟩, ⟨"B".data, []⟩], none, 0, 0⟩ :
        UiState).current_line := by
  constructor
  · decide
  · decide

/-- C5, amended: for every model with a non-empty lines list, a cursor
that addresses an existing line and direction, AND every line holding at
least one direction (the invariant C10 guarantees for reachable models),
applying `NextScreen` K times — K the total number of (line, direction)
pairs — returns the cursor to its original position. -/
theorem c5_amended (s : UiState) (hne : s.lines ≠ [])
    (hcl : s.current_line < s.lines.length)
    (hcd : s.current_direction_id <
      (s.lines.getD s.current_line default).directions.length)
    (hpos : ∀ l ∈ s.lines, l.directions ≠ []) :
    ((fun t => apply_ui_command t UiCommand.NextScreen)^[
        (s.lines.map (fun l => l.directions.length)).sum] s).current_line =
      s.current_line ∧
    ((fun t => apply_ui_command t UiCommand.NextScreen)^[
        (s.lines.map (fun l => l.directions.length)).sum] s).current_direction_id =
      s.current_direction_id := by
  have hpos' : ∀ x ∈ dirCounts s, 0 < x := by
    intro x hx
    rw [dirCounts] at hx
    obtain ⟨l, hl, hxe⟩ := List.mem_map.1 hx
    rw [← hxe]
    exact List.length_pos.2 (hpos l hl)
  have hvalid : validC (dirCounts s) (s.current_line, s.current_direction_id) := by
    refine ⟨by simpa [dirCounts] using hcl, ?_⟩
    show s.current_direction_id < (dirCounts s).getD s.current_line 0
    rw [dirCounts_getD]
    exact hcd
  have hcycle := cursorStep_cycle (dirCounts s) hpos' hvalid
  have hiter := nextScreen_iterate s hne ((dirCounts s).sum)
  constructor
  · rw [show (s.lines.map (fun l => l.directions.length)).sum =
      (dirCounts s).sum from rfl, hiter, hcycle]
  · rw [show (s.lines.map (fun l => l.directions.length)).sum =
      (dirCounts s).sum from rfl, hiter, hcycle]

/-- C5 witness: two lines with 2 and 1 directions, cursor at (0, 1);
K = 3 steps bring it back. -/
theorem c5_witness :
    ((fun t => apply_ui_command t UiCommand.NextScreen)^[
        ((⟨[⟨"A".data, [⟨"t".data, 1, []⟩, ⟨"u".data, 2, []⟩]⟩,
            ⟨"B".data, [⟨"v".data, 1, []⟩]⟩], none, 0, 1⟩ :
          UiState).lines.map (fun l => l.directions.length)).sum]
        ⟨[⟨"A".data, [⟨"t".data, 1, []⟩, ⟨"u".data, 2, []⟩]⟩,
            ⟨"B".data, [⟨"v".data, 1, []⟩]⟩], none, 0, 1⟩).current_line =
      (⟨[⟨"A".data, [⟨"t".data, 1, []⟩, ⟨"u".data, 2, []⟩]⟩,
          ⟨"B".data, [⟨"v".data, 1, []⟩]⟩], none, 0, 1⟩ : UiState).current_line ∧
    ((fun t => apply_ui_command t UiCommand.NextScreen)^[
        ((⟨[⟨"A".data, [⟨"t".data, 1, []⟩, ⟨"u".data, 2, []⟩]⟩,
            ⟨"B".data, [⟨"v".data, 1, []⟩]⟩], none, 0, 1⟩ :
          UiState).lines.map (fun l => l.directions.length)).sum]
        ⟨[⟨"A".data, [⟨"t".data, 1, []⟩, ⟨"u".data, 2, []⟩]⟩,
            ⟨"B".data, [⟨"v".data, 1, []⟩]⟩], none, 0, 1⟩).current_direction_id =
      (⟨[⟨"A".data, [⟨"t".data, 1, []⟩, ⟨"u".data, 2, []⟩]⟩,
          ⟨"B".data, [⟨"v".data, 1, []⟩]⟩], none, 0, 1⟩ : UiState).current_direction_id :=
  c5_amended
    ⟨[⟨"A".data, [⟨"t".data, 1, []⟩, ⟨"u".data, 2, []⟩]⟩,
        ⟨"B".data, [⟨"v".data, 1, []⟩]⟩], none, 0, 1⟩
    (by decide) (by decide) (by decide) (by decide)

end NextTramway
